import Mathlib

/-!
Verification development for the branch classification and ranking engine of
git-bstatus (src/main.rs, src/utils.rs), shallowly embedded in Lean.

The repository data source (libgit2) is treated as a black box, following the
external-interface contract of the design document: a repository exposes its
local branches, its remote-tracking HEAD references, a commit table and an
ahead/behind graph query.  Data-source level I/O failures (reference
enumeration errors, commit peel errors, invalid UTF-8 names) are not modelled;
the fallible steps of the engine itself (the default-branch resolution error,
the assertion on negative commit timestamps, the reference-parse assertion)
are modelled with Except.
-/

/-! ## Embedding of src/utils.rs -/

/-- Constant from src/utils.rs. -/
def SECONDS_PER_MINUTE : Nat := 60
/-- Constant from src/utils.rs. -/
def MINUTES_PER_HOUR : Nat := 60
/-- Constant from src/utils.rs. -/
def HOURS_PER_DAY : Nat := 24
/-- Constant from src/utils.rs. -/
def DAYS_PER_WEEK : Nat := 7
/-- Constant from src/utils.rs. -/
def DAYS_PER_MONTH : Nat := 30
/-- Constant from src/utils.rs. -/
def MONTHS_PER_YEAR : Nat := 12

/-- Embeds `fn plural(s: &str, n: u64) -> String` from src/utils.rs:
`format!("{} {}{}", n, s, if n == 1 { "" } else { "s" })`.
`Nat.repr n` is the decimal rendering used by the `{}` format of `n`. -/
def plural (s : String) (n : Nat) : String :=
  Nat.repr n ++ " " ++ s ++ (if n == 1 then "" else "s")

/-- Embeds `fn epoch_to_relative_str(timestamp: u64) -> String` from
src/utils.rs.  The ambient clock (`SystemTime::now`, in seconds since the
epoch) is passed explicitly as `now`. -/
def epoch_to_relative_str (timestamp : Nat) (now : Nat) : String :=
  if timestamp ≥ now then "now"
  else
    let secs := now - timestamp
    if secs < SECONDS_PER_MINUTE then plural "sec" secs
    else
      let mins := secs / SECONDS_PER_MINUTE
      if mins < MINUTES_PER_HOUR then plural "min" mins
      else
        let hours := mins / MINUTES_PER_HOUR
        if hours < HOURS_PER_DAY then plural "hour" hours
        else
          let days := hours / HOURS_PER_DAY
          if days < DAYS_PER_WEEK then plural "day" days
          else if days < DAYS_PER_MONTH then plural "week" (days / DAYS_PER_WEEK)
          else
            let months := days / DAYS_PER_MONTH
            if months < MONTHS_PER_YEAR then plural "month" months
            else plural "year" (months / MONTHS_PER_YEAR)

/-- Reference label function written from the specification text (section 8 /
claim C7), for comparison with `epoch_to_relative_str`: the unit is the
largest of sec/min/hour/day/week/month/year such that `ago` expressed in that
unit is at least 1 and below the next threshold (60 secs, 60 mins, 24 hours,
7 days, 30 days, 12 months), rendered as the count followed by the unit name,
with a trailing "s" exactly when the count is not 1. -/
def relLabelSpec (ago : Nat) : String :=
  if ago < 60 then pluralSpec "sec" ago
  else if ago / 60 < 60 then pluralSpec "min" (ago / 60)
  else if ago / 3600 < 24 then pluralSpec "hour" (ago / 3600)
  else if ago / 86400 < 7 then pluralSpec "day" (ago / 86400)
  else if ago / 86400 < 30 then pluralSpec "week" (ago / 86400 / 7)
  else if ago / 86400 / 30 < 12 then pluralSpec "month" (ago / 86400 / 30)
  else pluralSpec "year" (ago / 86400 / 30 / 12)
where
  /-- Pluralization rule as worded in the specification: trailing "s" iff the
  count differs from 1. -/
  pluralSpec (u : String) (n : Nat) : String :=
    Nat.repr n ++ " " ++ u ++ (if n = 1 then "" else "s")

theorem plural_eq_pluralSpec (s : String) (n : Nat) :
    plural s n = relLabelSpec.pluralSpec s n := by
  simp only [plural, relLabelSpec.pluralSpec, beq_iff_eq]

theorem epoch_eq_relLabelSpec (timestamp now : Nat) (h : timestamp < now) :
    epoch_to_relative_str timestamp now = relLabelSpec (now - timestamp) := by
  have hge : ¬ (timestamp ≥ now) := by omega
  have e2 : (now - timestamp) / 60 / 60 = (now - timestamp) / 3600 := by
    rw [Nat.div_div_eq_div_mul]
  have e3 : (now - timestamp) / 3600 / 24 = (now - timestamp) / 86400 := by
    rw [Nat.div_div_eq_div_mul]
  unfold epoch_to_relative_str relLabelSpec
  simp only [hge, if_false, SECONDS_PER_MINUTE, MINUTES_PER_HOUR, HOURS_PER_DAY,
    DAYS_PER_WEEK, DAYS_PER_MONTH, MONTHS_PER_YEAR, plural_eq_pluralSpec, e2, e3]

/-! ## Data model for src/main.rs

Shallow model of the repository data source, per the external-interface
contract: local branches (short name, checked-out flag, tip commit id,
optional upstream), remote-tracking HEAD references (full reference name,
remote flag, resolved target reference name), a commit table (timestamp in
seconds, possibly negative as reported by the source, and first-line summary)
and the ahead component of the ahead/behind graph query. -/

/-- A configured upstream (remote-tracking) branch of a local branch:
its short name (as printed) and the commit id its tip peels to. -/
structure UpstreamBranch where
  name : String
  tipOid : Nat
deriving DecidableEq

/-- A local branch as enumerated by `repo.branches(Some(BranchType::Local))`. -/
structure Branch where
  name : String
  isHead : Bool
  tipOid : Nat
  upstream : Option UpstreamBranch
deriving DecidableEq

/-- Timestamp (seconds since epoch, signed as reported by the data source)
and first-line summary of a commit. -/
structure CommitData where
  time : Int
  summary : String
deriving DecidableEq

/-- A reference yielded by `repo.references_glob("refs/remotes/*/HEAD")`:
its full name, whether it is a remote reference (`r.is_remote()`), and the
full name of the reference it resolves to (`r.resolve()`). -/
structure RemoteHeadRef where
  name : String
  isRemote : Bool
  resolvedName : String
deriving DecidableEq

/-- The repository data source. `commitOf` is the commit table (peeling a
tip id to its commit) and `ahead a b` is the ahead component of
`repo.graph_ahead_behind(a, b)`. -/
structure Repo where
  branches : List Branch
  remoteHeadRefs : List RemoteHeadRef
  commitOf : Nat → CommitData
  ahead : Nat → Nat → Nat

/-- Char-level model of Rust `str::starts_with` (`s.starts_with(p)`). -/
def strStartsWith (s p : String) : Bool :=
  p.data.isPrefixOf s.data

/-- Char-level model of Rust `str::contains` with a string pattern
(substring anywhere). -/
def strContains (s p : String) : Bool :=
  s.data.tails.any (fun t => p.data.isPrefixOf t)

/-! ## Embedding of find_default_sha (src/main.rs lines 215-265) -/

/-- The `for maybe_ref in maybe_refs` selection loop of `find_default_sha`
(src/main.rs lines 219-236), with `acc` the current value of `head_ref`:
non-remote references are skipped; a reference whose full name starts with
"refs/remotes/origin" is stored and the loop breaks; any other remote
reference is stored and enumeration continues. -/
def selectHeadRef : List RemoteHeadRef → Option RemoteHeadRef → Option RemoteHeadRef
  | [], acc => acc
  | r :: rest, acc =>
    if r.isRemote = false then selectHeadRef rest acc
    else if strStartsWith r.name "refs/remotes/origin" then some r
    else selectHeadRef rest (some r)

/-- The remote-tracking HEAD pointer chosen by `find_default_sha`. -/
def headRefChosen (repo : Repo) : Option RemoteHeadRef :=
  selectHeadRef repo.remoteHeadRefs none

/-- Model of `remote_and_ref.splitn(2, '/')`: split at the first slash,
returning `none` when the input contains no slash (in which case the
collected vector has a single element and the `assert!(v.len() == 2)`
of src/main.rs line 244 fails). -/
def splitFirstSlash : List Char → Option (List Char × List Char)
  | [] => none
  | c :: cs =>
    if c = '/' then some ([], cs)
    else
      match splitFirstSlash cs with
      | some (l, r) => some (c :: l, r)
      | none => none

/-- Model of `repo.find_branch(name, BranchType::Local)`. -/
def findLocalBranch (repo : Repo) (name : String) : Option Branch :=
  repo.branches.find? (fun b => b.name == name)

/-- The trailing name-fallback of `find_default_sha` (src/main.rs lines
253-264): guess a local branch literally named "master", then "main", and
otherwise fail with the no-default-branch error. -/
def fallbackDefault (repo : Repo) : Except String Nat :=
  match findLocalBranch repo "master" with
  | some b => Except.ok b.tipOid
  | none =>
    match findLocalBranch repo "main" with
    | some b => Except.ok b.tipOid
    | none => Except.error "Couldn\x27t find default branch"

/-- The `if let Some(hr) = head_ref` body of `find_default_sha` (src/main.rs
lines 238-251): resolve the chosen pointer, strip the "refs/remotes/"
prefix (13 characters), split off the remote segment at the first slash
(`splitn(2, '/')`, with `assert!(v.len() == 2)` modelled as an error), and
look up the local branch of the same name; when no such local branch exists
control falls through to the name fallback. -/
def resolveChosen (repo : Repo) (hr : RemoteHeadRef) : Except String Nat :=
  match splitFirstSlash (hr.resolvedName.data.drop ("refs/remotes/".length)) with
  | none => Except.error "assertion failed: v.len() == 2"
  | some (_, branchChars) =>
    match findLocalBranch repo (String.mk branchChars) with
    | some b => Except.ok b.tipOid
    | none => fallbackDefault repo

/-- Embeds `fn find_default_sha(repo) -> Result<Oid>` (src/main.rs lines
215-265). -/
def find_default_sha (repo : Repo) : Except String Nat :=
  match headRefChosen repo with
  | some hr => resolveChosen repo hr
  | none => fallbackDefault repo

/-! ## Embedding of scan_branches (src/main.rs lines 129-211) -/

/-- `enum BranchFilter` from src/main.rs. -/
inductive BranchFilter where
  | Recent
  | All
  | Merged
  | Unmerged
deriving DecidableEq

/-- `struct BranchInfo` from src/main.rs. -/
structure BranchInfo where
  name : String
  active : Bool
  timestamp : Nat
  timestamp_rel : String
  summary : String
  ahead : Nat
  oid : Nat
  upstream : Option String
deriving DecidableEq

/-- `struct BranchesInfo` from src/main.rs. -/
structure BranchesInfo where
  branches : List BranchInfo
  n_merged : Nat
  n_unmerged : Nat
deriving DecidableEq

/-- `const RECENT_N: usize = 5` from src/main.rs. -/
def RECENT_N : Nat := 5

/-- `u64::MAX`, used as the sort-key offset in src/main.rs line 196. -/
def U64_MAX : Nat := 18446744073709551615

/-- The name filter of src/main.rs lines 146-150: with patterns supplied the
branch is skipped when every pattern fails `name.contains(p)`; with no
patterns (`maybe_patterns == None`) nothing is skipped.  Returns true when
the branch is retained. -/
def passesName (maybe_patterns : Option (List String)) (name : String) : Bool :=
  match maybe_patterns with
  | some patterns => !(patterns.all (fun p => !(strContains name p)))
  | none => true

/-- The sort key of src/main.rs line 196: `u64::MAX - b.timestamp`
(ascending in this key is descending in timestamp). -/
def sortKey (b : BranchInfo) : Nat := U64_MAX - b.timestamp

/-- Insert a record into a list that is already sorted ascending by
`sortKey`, before the first element of larger-or-equal key. -/
def insertSorted (b : BranchInfo) : List BranchInfo → List BranchInfo
  | [] => [b]
  | c :: rest =>
    if sortKey b ≤ sortKey c then b :: c :: rest
    else c :: insertSorted b rest

/-- Model of `branches.sort_unstable_by_key(|b| u64::MAX - b.timestamp)`
(src/main.rs line 196).  Rust specifies `sort_unstable_by_key` only up to
"some permutation of the input that is sorted by the key"; tie order among
equal keys is explicitly unspecified (for slices of at most 20 elements the
2018-era standard library happens to run a plain insertion sort).  It is
modelled here as an insertion sort by the same key; no theorem below about
the program relies on the tie order this model happens to produce (the one
sortedness-plus-order statement, claim C4, carries a strict-descending
hypothesis under which every key-sorted permutation coincides). -/
def sortByKey : List BranchInfo → List BranchInfo
  | [] => []
  | b :: rest => insertSorted b (sortByKey rest)

/-- A permutation sorted ascending by `sortKey` — all that Rust guarantees
about the output order of `sort_unstable_by_key`. -/
def SortedByKeyLe (l : List BranchInfo) : Prop :=
  List.Pairwise (fun a b => sortKey a ≤ sortKey b) l

/-- The post-loop tail of `scan_branches` (src/main.rs lines 195-204):
sort by timestamp descending, truncate to `RECENT_N` when the filter is
Recent, then reverse when requested. -/
def rankBranches (filter : BranchFilter) (rev : Bool) (branches : List BranchInfo) :
    List BranchInfo :=
  let sorted := sortByKey branches
  let truncated := if filter = BranchFilter.Recent then sorted.take RECENT_N else sorted
  if rev then truncated.reverse else truncated

/-- The `for branch in repo.branches(...)` loop of `scan_branches`
(src/main.rs lines 140-193), with `n_merged`, `n_unmerged` and `acc` the
loop-carried accumulators.  Per branch: name filter; peel the tip; take the
upstream tip when configured, otherwise the precomputed `default_sha`;
`ahead` via the graph query; classify and count merged/unmerged; skip on the
merge-status filter; `assert!(commit.time().seconds() >= 0)` (modelled as an
error, since the process panics there); push the record. -/
def scanLoop (repo : Repo) (now : Nat) (default_sha : Nat)
    (maybe_patterns : Option (List String)) (filter : BranchFilter) :
    List Branch → Nat → Nat → List BranchInfo →
    Except String (Nat × Nat × List BranchInfo)
  | [], n_merged, n_unmerged, acc => Except.ok (n_merged, n_unmerged, acc)
  | b :: rest, n_merged, n_unmerged, acc =>
    if passesName maybe_patterns b.name = false then
      scanLoop repo now default_sha maybe_patterns filter rest n_merged n_unmerged acc
    else
      let oid := b.tipOid
      let commit := repo.commitOf oid
      let up := match b.upstream with
        | some u => (some u.name, u.tipOid)
        | none => ((none : Option String), default_sha)
      let ahead := repo.ahead oid up.2
      let merged := ahead == 0
      let n_merged' := if merged then n_merged + 1 else n_merged
      let n_unmerged' := if merged then n_unmerged else n_unmerged + 1
      if ((filter == BranchFilter.Merged) && !merged)
          || ((filter == BranchFilter.Unmerged) && merged) then
        scanLoop repo now default_sha maybe_patterns filter rest n_merged' n_unmerged' acc
      else if commit.time < 0 then
        Except.error "assertion failed: commit.time().seconds() >= 0"
      else
        scanLoop repo now default_sha maybe_patterns filter rest n_merged' n_unmerged'
          (acc ++ [{ name := b.name
                     active := b.isHead
                     timestamp := commit.time.toNat
                     timestamp_rel := epoch_to_relative_str commit.time.toNat now
                     summary := commit.summary
                     ahead := ahead
                     oid := oid
                     upstream := up.1 }])

/-- Embeds `fn scan_branches(repo, maybe_patterns, filter, reverse)`
(src/main.rs lines 129-211).  `find_default_sha` is evaluated first, exactly
as at src/main.rs line 135, before any branch is visited. -/
def scan_branches (repo : Repo) (now : Nat) (maybe_patterns : Option (List String))
    (filter : BranchFilter) (rev : Bool) : Except String BranchesInfo :=
  match find_default_sha repo with
  | Except.error e => Except.error e
  | Except.ok default_sha =>
    match scanLoop repo now default_sha maybe_patterns filter repo.branches 0 0 [] with
    | Except.error e => Except.error e
    | Except.ok (n_merged, n_unmerged, branches) =>
      Except.ok { branches := rankBranches filter rev branches
                  n_merged := n_merged
                  n_unmerged := n_unmerged }

/-! ## Pure per-branch views of the scan loop, for stating theorems -/

/-- The comparison baseline of a branch: its upstream tip when configured,
otherwise the resolved default (src/main.rs lines 156-163). -/
def baselineOf (default_sha : Nat) (b : Branch) : Nat :=
  match b.upstream with
  | some u => u.tipOid
  | none => default_sha

/-- The ahead count the scan computes for a branch (src/main.rs line 165). -/
def aheadOf (repo : Repo) (default_sha : Nat) (b : Branch) : Nat :=
  repo.ahead b.tipOid (baselineOf default_sha b)

/-- Whether the merge-status filter of src/main.rs lines 174-178 keeps a
branch whose merged flag is `merged`. -/
def keptByMergeFilter (filter : BranchFilter) (merged : Bool) : Bool :=
  !(((filter == BranchFilter.Merged) && !merged)
    || ((filter == BranchFilter.Unmerged) && merged))

/-- Whether a branch both passes the name filter and survives the
merge-status filter, i.e. would be pushed as a record (timestamp permitting). -/
def survives (repo : Repo) (default_sha : Nat) (maybe_patterns : Option (List String))
    (filter : BranchFilter) (b : Branch) : Bool :=
  passesName maybe_patterns b.name
    && keptByMergeFilter filter (aheadOf repo default_sha b == 0)

/-- The record the scan loop pushes for a surviving branch. -/
def recordOf (repo : Repo) (now : Nat) (default_sha : Nat) (b : Branch) : BranchInfo :=
  { name := b.name
    active := b.isHead
    timestamp := (repo.commitOf b.tipOid).time.toNat
    timestamp_rel := epoch_to_relative_str (repo.commitOf b.tipOid).time.toNat now
    summary := (repo.commitOf b.tipOid).summary
    ahead := aheadOf repo default_sha b
    oid := b.tipOid
    upstream := b.upstream.map (fun u => u.name) }

/-- Number of name-filter-surviving branches classified merged. -/
def countMerged (repo : Repo) (default_sha : Nat) (maybe_patterns : Option (List String))
    (l : List Branch) : Nat :=
  (l.filter (fun b => passesName maybe_patterns b.name
    && (aheadOf repo default_sha b == 0))).length

/-- Number of name-filter-surviving branches classified unmerged. -/
def countUnmerged (repo : Repo) (default_sha : Nat) (maybe_patterns : Option (List String))
    (l : List Branch) : Nat :=
  (l.filter (fun b => passesName maybe_patterns b.name
    && !(aheadOf repo default_sha b == 0))).length

/-! ## Scan-loop lemmas -/

theorem length_filter_and_add {α : Type} (p q : α → Bool) (l : List α) :
    (l.filter (fun a => p a && q a)).length
      + (l.filter (fun a => p a && !(q a))).length
      = (l.filter p).length := by
  induction l with
  | nil => simp
  | cons a rest ih =>
    by_cases hp : p a
    · by_cases hq : q a
      · simp [List.filter_cons, hp, hq, ih]
        omega
      · simp [List.filter_cons, hp, hq, ih]
        omega
    · simp [List.filter_cons, hp, ih]

theorem countMerged_cons (repo : Repo) (d : Nat) (pats : Option (List String))
    (b : Branch) (rest : List Branch) :
    countMerged repo d pats (b :: rest)
      = (if passesName pats b.name && (aheadOf repo d b == 0) then 1 else 0)
        + countMerged repo d pats rest := by
  by_cases hb : (passesName pats b.name && (aheadOf repo d b == 0)) = true
  · simp [countMerged, List.filter_cons, hb]
    omega
  · simp only [Bool.not_eq_true] at hb
    simp [countMerged, List.filter_cons, hb]

theorem countUnmerged_cons (repo : Repo) (d : Nat) (pats : Option (List String))
    (b : Branch) (rest : List Branch) :
    countUnmerged repo d pats (b :: rest)
      = (if passesName pats b.name && !(aheadOf repo d b == 0) then 1 else 0)
        + countUnmerged repo d pats rest := by
  by_cases hb : (passesName pats b.name && !(aheadOf repo d b == 0)) = true
  · simp [countUnmerged, List.filter_cons, hb]
    omega
  · simp only [Bool.not_eq_true] at hb
    simp [countUnmerged, List.filter_cons, hb]

theorem scanLoop_ok_of (repo : Repo) (now default_sha : Nat)
    (maybe_patterns : Option (List String)) (filter : BranchFilter) :
    ∀ (l : List Branch) (m u : Nat) (acc : List BranchInfo),
      (∀ b ∈ l, passesName maybe_patterns b.name = true →
        keptByMergeFilter filter (aheadOf repo default_sha b == 0) = true →
        0 ≤ (repo.commitOf b.tipOid).time) →
      scanLoop repo now default_sha maybe_patterns filter l m u acc =
        Except.ok (m + countMerged repo default_sha maybe_patterns l,
          u + countUnmerged repo default_sha maybe_patterns l,
          acc ++ (l.filter (survives repo default_sha maybe_patterns filter)).map
            (recordOf repo now default_sha)) := by
  intro l
  induction l with
  | nil => intro m u acc _; simp [scanLoop, countMerged, countUnmerged]
  | cons b rest ih =>
    intro m u acc h
    have hrest : ∀ c ∈ rest, passesName maybe_patterns c.name = true →
        keptByMergeFilter filter (aheadOf repo default_sha c == 0) = true →
        0 ≤ (repo.commitOf c.tipOid).time := by
      intro c hc; exact h c (List.mem_cons_of_mem _ hc)
    rw [countMerged_cons, countUnmerged_cons]
    by_cases hp : passesName maybe_patterns b.name = false
    · have hs : survives repo default_sha maybe_patterns filter b = false := by
        simp [survives, hp]
      simp only [scanLoop]
      rw [if_pos hp, ih _ _ _ hrest]
      simp [List.filter_cons, hs, hp]
    · have hp2 : passesName maybe_patterns b.name = true := by
        revert hp; cases passesName maybe_patterns b.name <;> simp
      by_cases hsk : (((filter == BranchFilter.Merged)
            && !(aheadOf repo default_sha b == 0))
          || ((filter == BranchFilter.Unmerged)
            && (aheadOf repo default_sha b == 0))) = true
      · -- dropped by the merge-status filter, but still counted
        have hkept : keptByMergeFilter filter (aheadOf repo default_sha b == 0)
            = false := by
          simp [keptByMergeFilter, hsk]
        have hs : survives repo default_sha maybe_patterns filter b = false := by
          simp [survives, hkept]
        cases hu : b.upstream with
        | none =>
          have hsk' := hsk
          simp only [aheadOf, baselineOf, hu] at hsk'
          simp only [scanLoop, hu]
          rw [if_neg hp, if_pos hsk', ih _ _ _ hrest]
          simp only [Except.ok.injEq, Prod.mk.injEq]
          refine ⟨?_, ?_, ?_⟩
          · by_cases hm : (repo.ahead b.tipOid default_sha == 0) = true
            · have hmA : (aheadOf repo default_sha b == 0) = true := by
                simpa [aheadOf, baselineOf, hu] using hm
              simp [hm, hmA, hp2]
              omega
            · simp only [Bool.not_eq_true] at hm
              have hmA : (aheadOf repo default_sha b == 0) = false := by
                simpa [aheadOf, baselineOf, hu] using hm
              simp [hm, hmA, hp2]
          · by_cases hm : (repo.ahead b.tipOid default_sha == 0) = true
            · have hmA : (aheadOf repo default_sha b == 0) = true := by
                simpa [aheadOf, baselineOf, hu] using hm
              simp [hm, hmA, hp2]
            · simp only [Bool.not_eq_true] at hm
              have hmA : (aheadOf repo default_sha b == 0) = false := by
                simpa [aheadOf, baselineOf, hu] using hm
              simp [hm, hmA, hp2]
              omega
          · simp [List.filter_cons, hs]
        | some up =>
          have hsk' := hsk
          simp only [aheadOf, baselineOf, hu] at hsk'
          simp only [scanLoop, hu]
          rw [if_neg hp, if_pos hsk', ih _ _ _ hrest]
          simp only [Except.ok.injEq, Prod.mk.injEq]
          refine ⟨?_, ?_, ?_⟩
          · by_cases hm : (repo.ahead b.tipOid up.tipOid == 0) = true
            · have hmA : (aheadOf repo default_sha b == 0) = true := by
                simpa [aheadOf, baselineOf, hu] using hm
              simp [hm, hmA, hp2]
              omega
            · simp only [Bool.not_eq_true] at hm
              have hmA : (aheadOf repo default_sha b == 0) = false := by
                simpa [aheadOf, baselineOf, hu] using hm
              simp [hm, hmA, hp2]
          · by_cases hm : (repo.ahead b.tipOid up.tipOid == 0) = true
            · have hmA : (aheadOf repo default_sha b == 0) = true := by
                simpa [aheadOf, baselineOf, hu] using hm
              simp [hm, hmA, hp2]
            · simp only [Bool.not_eq_true] at hm
              have hmA : (aheadOf repo default_sha b == 0) = false := by
                simpa [aheadOf, baselineOf, hu] using hm
              simp [hm, hmA, hp2]
              omega
          · simp [List.filter_cons, hs]
      · -- survives both filters: counted and pushed
        have hsk2 : (((filter == BranchFilter.Merged)
              && !(aheadOf repo default_sha b == 0))
            || ((filter == BranchFilter.Unmerged)
              && (aheadOf repo default_sha b == 0))) = false := by
          revert hsk
          cases (((filter == BranchFilter.Merged)
              && !(aheadOf repo default_sha b == 0))
            || ((filter == BranchFilter.Unmerged)
              && (aheadOf repo default_sha b == 0))) <;> simp
        have hkept : keptByMergeFilter filter (aheadOf repo default_sha b == 0)
            = true := by
          simp [keptByMergeFilter, hsk2]
        have hs : survives repo default_sha maybe_patterns filter b = true := by
          simp [survives, hp2, hkept]
        have ht : 0 ≤ (repo.commitOf b.tipOid).time :=
          h b (List.mem_cons_self b rest) hp2 hkept
        have ht' : ¬ ((repo.commitOf b.tipOid).time < 0) := by omega
        cases hu : b.upstream with
        | none =>
          have hsk' := hsk2
          simp only [aheadOf, baselineOf, hu] at hsk'
          have hsknot : ¬ ((((filter == BranchFilter.Merged)
                && !(repo.ahead b.tipOid default_sha == 0))
              || ((filter == BranchFilter.Unmerged)
                && (repo.ahead b.tipOid default_sha == 0))) = true) := by
            simp [hsk']
          simp only [scanLoop, hu]
          rw [if_neg hp, if_neg hsknot, if_neg ht', ih _ _ _ hrest]
          simp only [Except.ok.injEq, Prod.mk.injEq]
          refine ⟨?_, ?_, ?_⟩
          · by_cases hm : (repo.ahead b.tipOid default_sha == 0) = true
            · have hmA : (aheadOf repo default_sha b == 0) = true := by
                simpa [aheadOf, baselineOf, hu] using hm
              simp [hm, hmA, hp2]
              omega
            · simp only [Bool.not_eq_true] at hm
              have hmA : (aheadOf repo default_sha b == 0) = false := by
                simpa [aheadOf, baselineOf, hu] using hm
              simp [hm, hmA, hp2]
          · by_cases hm : (repo.ahead b.tipOid default_sha == 0) = true
            · have hmA : (aheadOf repo default_sha b == 0) = true := by
                simpa [aheadOf, baselineOf, hu] using hm
              simp [hm, hmA, hp2]
            · simp only [Bool.not_eq_true] at hm
              have hmA : (aheadOf repo default_sha b == 0) = false := by
                simpa [aheadOf, baselineOf, hu] using hm
              simp [hm, hmA, hp2]
              omega
          · simp [List.filter_cons, hs, recordOf, aheadOf, baselineOf, hu,
              List.append_assoc]
        | some up =>
          have hsk' := hsk2
          simp only [aheadOf, baselineOf, hu] at hsk'
          have hsknot : ¬ ((((filter == BranchFilter.Merged)
                && !(repo.ahead b.tipOid up.tipOid == 0))
              || ((filter == BranchFilter.Unmerged)
                && (repo.ahead b.tipOid up.tipOid == 0))) = true) := by
            simp [hsk']
          simp only [scanLoop, hu]
          rw [if_neg hp, if_neg hsknot, if_neg ht', ih _ _ _ hrest]
          simp only [Except.ok.injEq, Prod.mk.injEq]
          refine ⟨?_, ?_, ?_⟩
          · by_cases hm : (repo.ahead b.tipOid up.tipOid == 0) = true
            · have hmA : (aheadOf repo default_sha b == 0) = true := by
                simpa [aheadOf, baselineOf, hu] using hm
              simp [hm, hmA, hp2]
              omega
            · simp only [Bool.not_eq_true] at hm
              have hmA : (aheadOf repo default_sha b == 0) = false := by
                simpa [aheadOf, baselineOf, hu] using hm
              simp [hm, hmA, hp2]
          · by_cases hm : (repo.ahead b.tipOid up.tipOid == 0) = true
            · have hmA : (aheadOf repo default_sha b == 0) = true := by
                simpa [aheadOf, baselineOf, hu] using hm
              simp [hm, hmA, hp2]
            · simp only [Bool.not_eq_true] at hm
              have hmA : (aheadOf repo default_sha b == 0) = false := by
                simpa [aheadOf, baselineOf, hu] using hm
              simp [hm, hmA, hp2]
              omega
          · simp [List.filter_cons, hs, recordOf, aheadOf, baselineOf, hu,
              List.append_assoc]

theorem scanLoop_ok_nonneg (repo : Repo) (now default_sha : Nat)
    (maybe_patterns : Option (List String)) (filter : BranchFilter) :
    ∀ (l : List Branch) (m u : Nat) (acc : List BranchInfo)
      (r : Nat × Nat × List BranchInfo),
      scanLoop repo now default_sha maybe_patterns filter l m u acc = Except.ok r →
      ∀ b ∈ l, passesName maybe_patterns b.name = true →
        keptByMergeFilter filter (aheadOf repo default_sha b == 0) = true →
        0 ≤ (repo.commitOf b.tipOid).time := by
  intro l
  induction l with
  | nil => intro m u acc r _ b hb; exact absurd hb (List.not_mem_nil b)
  | cons b rest ih =>
    intro m u acc r hok c hc hcp hck
    by_cases hp : passesName maybe_patterns b.name = false
    · simp only [scanLoop] at hok
      rw [if_pos hp] at hok
      rcases List.mem_cons.mp hc with hcb | hcr
      · subst hcb; rw [hcp] at hp; exact absurd hp (by simp)
      · exact ih _ _ _ _ hok c hcr hcp hck
    · by_cases hsk : (((filter == BranchFilter.Merged)
            && !(aheadOf repo default_sha b == 0))
          || ((filter == BranchFilter.Unmerged)
            && (aheadOf repo default_sha b == 0))) = true
      · have hkept : keptByMergeFilter filter (aheadOf repo default_sha b == 0)
            = false := by
          simp [keptByMergeFilter, hsk]
        rcases List.mem_cons.mp hc with hcb | hcr
        · subst hcb; rw [hck] at hkept; exact absurd hkept (by simp)
        · cases hu : b.upstream with
          | none =>
            have hsk' := hsk
            simp only [aheadOf, baselineOf, hu] at hsk'
            simp only [scanLoop, hu] at hok
            rw [if_neg hp, if_pos hsk'] at hok
            exact ih _ _ _ _ hok c hcr hcp hck
          | some up =>
            have hsk' := hsk
            simp only [aheadOf, baselineOf, hu] at hsk'
            simp only [scanLoop, hu] at hok
            rw [if_neg hp, if_pos hsk'] at hok
            exact ih _ _ _ _ hok c hcr hcp hck
      · have hsk2 : (((filter == BranchFilter.Merged)
              && !(aheadOf repo default_sha b == 0))
            || ((filter == BranchFilter.Unmerged)
              && (aheadOf repo default_sha b == 0))) = false := by
          revert hsk
          cases (((filter == BranchFilter.Merged)
              && !(aheadOf repo default_sha b == 0))
            || ((filter == BranchFilter.Unmerged)
              && (aheadOf repo default_sha b == 0))) <;> simp
        by_cases ht : (repo.commitOf b.tipOid).time < 0
        · -- the loop would have errored out here
          exfalso
          cases hu : b.upstream with
          | none =>
            have hsk' := hsk2
            simp only [aheadOf, baselineOf, hu] at hsk'
            have hsknot : ¬ ((((filter == BranchFilter.Merged)
                  && !(repo.ahead b.tipOid default_sha == 0))
                || ((filter == BranchFilter.Unmerged)
                  && (repo.ahead b.tipOid default_sha == 0))) = true) := by
              simp [hsk']
            simp only [scanLoop, hu] at hok
            rw [if_neg hp, if_neg hsknot, if_pos ht] at hok
            exact absurd hok (by simp)
          | some up =>
            have hsk' := hsk2
            simp only [aheadOf, baselineOf, hu] at hsk'
            have hsknot : ¬ ((((filter == BranchFilter.Merged)
                  && !(repo.ahead b.tipOid up.tipOid == 0))
                || ((filter == BranchFilter.Unmerged)
                  && (repo.ahead b.tipOid up.tipOid == 0))) = true) := by
              simp [hsk']
            simp only [scanLoop, hu] at hok
            rw [if_neg hp, if_neg hsknot, if_pos ht] at hok
            exact absurd hok (by simp)
        · rcases List.mem_cons.mp hc with hcb | hcr
          · subst hcb; omega
          · cases hu : b.upstream with
            | none =>
              have hsk' := hsk2
              simp only [aheadOf, baselineOf, hu] at hsk'
              have hsknot : ¬ ((((filter == BranchFilter.Merged)
                    && !(repo.ahead b.tipOid default_sha == 0))
                  || ((filter == BranchFilter.Unmerged)
                    && (repo.ahead b.tipOid default_sha == 0))) = true) := by
                simp [hsk']
              simp only [scanLoop, hu] at hok
              rw [if_neg hp, if_neg hsknot, if_neg ht] at hok
              exact ih _ _ _ _ hok c hcr hcp hck
            | some up =>
              have hsk' := hsk2
              simp only [aheadOf, baselineOf, hu] at hsk'
              have hsknot : ¬ ((((filter == BranchFilter.Merged)
                    && !(repo.ahead b.tipOid up.tipOid == 0))
                  || ((filter == BranchFilter.Unmerged)
                    && (repo.ahead b.tipOid up.tipOid == 0))) = true) := by
                simp [hsk']
              simp only [scanLoop, hu] at hok
              rw [if_neg hp, if_neg hsknot, if_neg ht] at hok
              exact ih _ _ _ _ hok c hcr hcp hck

/-! ## Sort and ranking lemmas -/

theorem insertSorted_mem (b r : BranchInfo) :
    ∀ (l : List BranchInfo), r ∈ insertSorted b l ↔ r = b ∨ r ∈ l := by
  intro l
  induction l with
  | nil => simp [insertSorted]
  | cons c rest ih =>
    by_cases hle : sortKey b ≤ sortKey c
    · simp [insertSorted, hle]
    · simp only [insertSorted, hle, if_false, List.mem_cons, ih]
      tauto

theorem sortByKey_mem (r : BranchInfo) :
    ∀ (l : List BranchInfo), r ∈ sortByKey l ↔ r ∈ l := by
  intro l
  induction l with
  | nil => simp [sortByKey]
  | cons b rest ih =>
    simp only [sortByKey, insertSorted_mem, ih, List.mem_cons]

theorem sortByKey_eq_self_of_sorted :
    ∀ (l : List BranchInfo), SortedByKeyLe l → sortByKey l = l := by
  intro l
  induction l with
  | nil => intro _; rfl
  | cons b rest ih =>
    intro hs
    rcases List.pairwise_cons.mp hs with ⟨hb, hrest⟩
    rw [sortByKey, ih hrest]
    cases rest with
    | nil => rfl
    | cons c rest2 =>
      have hbc : sortKey b ≤ sortKey c := hb c (List.mem_cons_self c rest2)
      simp [insertSorted, hbc]

theorem rankBranches_subset (filter : BranchFilter) (rev : Bool)
    (l : List BranchInfo) (r : BranchInfo) (h : r ∈ rankBranches filter rev l) :
    r ∈ l := by
  unfold rankBranches at h
  have h1 : r ∈ (if filter = BranchFilter.Recent
      then (sortByKey l).take RECENT_N else sortByKey l) := by
    by_cases hrev : rev = true
    · rw [hrev] at h; simpa using List.mem_reverse.mp (by simpa using h)
    · have hrev' : rev = false := by revert hrev; cases rev <;> simp
      rw [hrev'] at h; simpa using h
  have h2 : r ∈ sortByKey l := by
    by_cases hf : filter = BranchFilter.Recent
    · rw [if_pos hf] at h1; exact List.take_subset _ _ h1
    · rw [if_neg hf] at h1; exact h1
  exact (sortByKey_mem r l).mp h2

theorem pairwise_key_of_strict_desc (l : List BranchInfo)
    (h : List.Pairwise (fun a b => b.timestamp < a.timestamp) l) :
    SortedByKeyLe l := by
  refine List.Pairwise.imp ?_ h
  intro a b hab
  exact Nat.sub_le_sub_left (Nat.le_of_lt hab) U64_MAX

/-! ## Default-branch selection lemmas -/

theorem selectHeadRef_eq :
    ∀ (refs : List RemoteHeadRef) (acc : Option RemoteHeadRef),
      selectHeadRef refs acc =
        match (refs.filter (fun r => r.isRemote)).find?
            (fun r => strStartsWith r.name "refs/remotes/origin") with
        | some r => some r
        | none =>
          match (refs.filter (fun r => r.isRemote)).getLast? with
          | some r => some r
          | none => acc := by
  intro refs
  induction refs with
  | nil => intro acc; rfl
  | cons r rest ih =>
    intro acc
    by_cases hrem : r.isRemote = false
    · simp only [selectHeadRef]
      rw [if_pos hrem, ih]
      have hrem2 : (r.isRemote = true) = False := by simp [hrem]
      simp [List.filter_cons, hrem]
    · have hrem2 : r.isRemote = true := by
        revert hrem; cases r.isRemote <;> simp
      by_cases horig : strStartsWith r.name "refs/remotes/origin" = true
      · simp only [selectHeadRef]
        rw [if_neg hrem, if_pos horig]
        simp [List.filter_cons, hrem2, List.find?_cons, horig]
      · have horig2 : strStartsWith r.name "refs/remotes/origin" = false := by
          revert horig; cases strStartsWith r.name "refs/remotes/origin" <;> simp
        simp only [selectHeadRef]
        rw [if_neg hrem, if_neg horig, ih]
        cases hf : (rest.filter (fun r => r.isRemote)).find?
            (fun r => strStartsWith r.name "refs/remotes/origin") with
        | some x =>
          simp [List.filter_cons, hrem2, List.find?_cons, horig2, hf]
        | none =>
          cases hrest : rest.filter (fun r => r.isRemote) with
          | nil =>
            rw [hrest] at hf
            simp [List.filter_cons, hrem2, List.find?_cons, horig2, hf, hrest]
          | cons y ys =>
            rw [hrest] at hf
            simp only [List.filter_cons, hrem2, if_true, List.find?_cons, horig2,
              Bool.false_eq_true, if_false, hf, hrest, List.getLast?_cons_cons]
            cases hgl : (y :: ys).getLast? with
            | some z => simp
            | none =>
              exfalso
              have : (y :: ys) = [] := by
                simpa using congrArg Option.isSome hgl
              exact List.cons_ne_nil y ys this

/-! ## Name-filter lemmas -/

theorem strContains_iff (s p : String) :
    strContains s p = true ↔ ∃ l r : List Char, s.data = l ++ p.data ++ r := by
  unfold strContains
  rw [List.any_eq_true]
  constructor
  · rintro ⟨t, ht, hpre⟩
    have hsuf : t <:+ s.data := (List.mem_tails t s.data).mp ht
    have hp : p.data <+: t := List.isPrefixOf_iff_prefix.mp hpre
    have hinf : p.data <:+: s.data := List.infix_iff_prefix_suffix.mpr ⟨t, hp, hsuf⟩
    rcases hinf with ⟨l, r, hlr⟩
    exact ⟨l, r, hlr.symm⟩
  · rintro ⟨l, r, hlr⟩
    have hinf : p.data <:+: s.data := ⟨l, r, hlr.symm⟩
    rcases List.infix_iff_prefix_suffix.mp hinf with ⟨t, hp, hsuf⟩
    exact ⟨t, (List.mem_tails t s.data).mpr hsuf, List.isPrefixOf_iff_prefix.mpr hp⟩

theorem passesName_some_iff (pats : List String) (name : String) :
    passesName (some pats) name = true ↔ ∃ p ∈ pats, strContains name p = true := by
  simp only [passesName, Bool.not_eq_true']
  rw [List.all_eq_false]
  simp

/-! ## Claim theorems -/

/-- C6: name filtering retains a branch iff at least one supplied pattern is a
case-sensitive substring of its name (a substring anywhere, witnessed by a
decomposition of the name around the pattern, not only a prefix); with zero
patterns supplied (`maybe_patterns == None`) every branch passes the filter. -/
theorem C6_name_filter (pats : List String) (name : String) :
    passesName none name = true
    ∧ (passesName (some pats) name = true ↔
        ∃ p ∈ pats, ∃ l r : List Char, name.data = l ++ p.data ++ r) := by
  constructor
  · rfl
  · rw [passesName_some_iff]
    constructor
    · rintro ⟨p, hp, hc⟩; exact ⟨p, hp, (strContains_iff name p).mp hc⟩
    · rintro ⟨p, hp, hc⟩; exact ⟨p, hp, (strContains_iff name p).mpr hc⟩

/-- C6 witness: the pattern "eat" is an interior substring of the branch name
"feature", and the filter retains it. -/
theorem C6_name_filter_witness :
    passesName none "feature" = true
    ∧ (∃ p ∈ ["eat"], ∃ l r : List Char, "feature".data = l ++ p.data ++ r) := by
  refine ⟨(C6_name_filter ["eat"] "feature").1, ?_⟩
  exact (C6_name_filter ["eat"] "feature").2.mp (by decide)

/-- A record with timestamp 100, for exhibiting sort-key ties. -/
def tieRecA : BranchInfo :=
  { name := "alpha"
    active := false
    timestamp := 100
    timestamp_rel := ""
    summary := ""
    ahead := 0
    oid := 1
    upstream := none }

/-- A second, distinct record with the same timestamp 100. -/
def tieRecB : BranchInfo :=
  { name := "beta"
    active := false
    timestamp := 100
    timestamp_rel := ""
    summary := ""
    ahead := 1
    oid := 2
    upstream := none }

/-- C2 (supporting theorem for the code finding): the contract of the sort
the code invokes — `sort_unstable_by_key(|b| u64::MAX - b.timestamp)`
guarantees only a permutation of the input that is sorted by the key — does
not determine the relative order of records with equal timestamps: two
distinct orderings of the same input both satisfy it. -/
theorem C2_sort_contract_underdetermined :
    ∃ (l₁ l₂ : List BranchInfo),
      l₁ ≠ l₂ ∧ l₁.Perm l₂ ∧ SortedByKeyLe l₁ ∧ SortedByKeyLe l₂ := by
  refine ⟨[tieRecA, tieRecB], [tieRecB, tieRecA], ?_, ?_, ?_, ?_⟩
  · decide
  · exact List.Perm.swap tieRecB tieRecA []
  · simp [SortedByKeyLe, List.pairwise_cons, tieRecA, tieRecB, sortKey, U64_MAX]
  · simp [SortedByKeyLe, List.pairwise_cons, tieRecA, tieRecB, sortKey, U64_MAX]

/-- C3: for every successful invocation, the aggregate counters returned by
the scan equal the number of name-filter-surviving branches classified
merged (ahead count zero against the upstream-or-default baseline) and
unmerged respectively — counted regardless of the merge-status filter — and
their sum is the total number of name-filter-surviving branches; the
counters are read off the final `BranchesInfo`, after sorting, truncation
and reversal, so none of those steps changes them. -/
theorem C3_counters (repo : Repo) (now : Nat) (maybe_patterns : Option (List String))
    (filter : BranchFilter) (rev : Bool) (info : BranchesInfo) (default_sha : Nat)
    (hd : find_default_sha repo = Except.ok default_sha)
    (h : scan_branches repo now maybe_patterns filter rev = Except.ok info) :
    info.n_merged = countMerged repo default_sha maybe_patterns repo.branches
    ∧ info.n_unmerged = countUnmerged repo default_sha maybe_patterns repo.branches
    ∧ info.n_merged + info.n_unmerged
        = (repo.branches.filter (fun b => passesName maybe_patterns b.name)).length := by
  unfold scan_branches at h
  split at h
  next e heq => rw [hd] at heq; exact absurd heq (by simp)
  next d heq =>
    rw [hd] at heq
    injection heq with heqd
    subst heqd
    split at h
    next e heq2 => exact absurd h (by simp)
    next m u l heq2 =>
      injection h with h2
      subst h2
      have hnn := scanLoop_ok_nonneg repo now default_sha maybe_patterns filter
        repo.branches 0 0 [] (m, u, l) heq2
      have hok := scanLoop_ok_of repo now default_sha maybe_patterns filter
        repo.branches 0 0 [] hnn
      rw [heq2] at hok
      injection hok with h3
      obtain ⟨hm, hu, hl⟩ : m = 0 + countMerged repo default_sha maybe_patterns repo.branches
          ∧ u = 0 + countUnmerged repo default_sha maybe_patterns repo.branches
          ∧ l = [] ++ (repo.branches.filter
              (survives repo default_sha maybe_patterns filter)).map
              (recordOf repo now default_sha) := by
        simpa using h3
      have hsum : countMerged repo default_sha maybe_patterns repo.branches
          + countUnmerged repo default_sha maybe_patterns repo.branches
          = (repo.branches.filter (fun b => passesName maybe_patterns b.name)).length := by
        unfold countMerged countUnmerged
        simpa using length_filter_and_add (fun b => passesName maybe_patterns b.name)
          (fun b => aheadOf repo default_sha b == 0) repo.branches
      refine ⟨by simpa using hm, by simpa using hu, ?_⟩
      show m + u = (repo.branches.filter (fun b => passesName maybe_patterns b.name)).length
      omega

/-- C9: the ranking pipeline never alters a retained record — every record in
the output sequence is literally one of the records built by the scan loop
(hence has identical name, active flag, timestamp, summary, ahead count, tip
id and upstream name) — and the aggregate counters computed during scanning
are passed through to the output unchanged.  (In the code the merge-status
filter runs inside the scan loop, before record construction; sorting,
truncation and reversal are `rankBranches`.) -/
theorem C9_frame (repo : Repo) (now : Nat) (maybe_patterns : Option (List String))
    (filter : BranchFilter) (rev : Bool) (info : BranchesInfo)
    (h : scan_branches repo now maybe_patterns filter rev = Except.ok info) :
    ∃ default_sha prerank,
      find_default_sha repo = Except.ok default_sha
      ∧ scanLoop repo now default_sha maybe_patterns filter repo.branches 0 0 []
          = Except.ok (info.n_merged, info.n_unmerged, prerank)
      ∧ info.branches = rankBranches filter rev prerank
      ∧ ∀ r ∈ info.branches, r ∈ prerank := by
  unfold scan_branches at h
  split at h
  next e heq => exact absurd h (by simp)
  next d heq =>
    split at h
    next e heq2 => exact absurd h (by simp)
    next m u l heq2 =>
      injection h with h2
      subst h2
      refine ⟨d, l, heq, heq2, rfl, ?_⟩
      intro r hr
      exact rankBranches_subset filter rev l r hr

/-- C4: with mode Recent and reverse requested, truncation happens before
reversal — on any 10-record input already sorted strictly descending by
timestamp, the ranking returns exactly the reversal of the first five
records: the five most recent, in ascending time order, and none of the five
oldest. -/
theorem C4_truncate_then_reverse (l : List BranchInfo)
    (_hlen : l.length = 10)
    (hdesc : List.Pairwise (fun a b => b.timestamp < a.timestamp) l) :
    rankBranches BranchFilter.Recent true l = (l.take 5).reverse
    ∧ List.Pairwise (fun a b : BranchInfo => a.timestamp < b.timestamp)
        (rankBranches BranchFilter.Recent true l)
    ∧ (∀ r ∈ rankBranches BranchFilter.Recent true l, r ∈ l.take 5)
    ∧ (∀ r ∈ rankBranches BranchFilter.Recent true l, r ∉ l.drop 5) := by
  have hsorted : sortByKey l = l :=
    sortByKey_eq_self_of_sorted l (pairwise_key_of_strict_desc l hdesc)
  have hrank : rankBranches BranchFilter.Recent true l = (l.take 5).reverse := by
    unfold rankBranches
    rw [hsorted]
    simp [RECENT_N]
  have htake : ∀ r ∈ rankBranches BranchFilter.Recent true l, r ∈ l.take 5 := by
    intro r hr
    rw [hrank] at hr
    exact List.mem_reverse.mp hr
  refine ⟨hrank, ?_, htake, ?_⟩
  · rw [hrank, List.pairwise_reverse]
    exact List.Pairwise.sublist (List.take_sublist 5 l) hdesc
  · intro r hr hmem
    have hr5 : r ∈ l.take 5 := htake r hr
    have hpw : ∀ a ∈ l.take 5, ∀ b ∈ l.drop 5, b.timestamp < a.timestamp := by
      have hd2 := hdesc
      rw [← List.take_append_drop 5 l] at hd2
      exact fun a ha b hb => (List.pairwise_append.mp hd2).2.2 a ha b hb
    have := hpw r hr5 r hmem
    omega

/-- A demonstration record with the given timestamp, for the C4 witness. -/
def demoRec (i : Nat) : BranchInfo :=
  { name := "b"
    active := false
    timestamp := i
    timestamp_rel := ""
    summary := ""
    ahead := 0
    oid := 0
    upstream := none }

/-- Ten records sorted strictly descending by timestamp. -/
def demoList : List BranchInfo :=
  [demoRec 10, demoRec 9, demoRec 8, demoRec 7, demoRec 6,
   demoRec 5, demoRec 4, demoRec 3, demoRec 2, demoRec 1]

/-- C4 witness: on the concrete ten-record strictly descending input, Recent
ranking with reverse yields the reversal of the first five records. -/
theorem C4_truncate_then_reverse_witness :
    rankBranches BranchFilter.Recent true demoList = (demoList.take 5).reverse
    ∧ ∀ r ∈ rankBranches BranchFilter.Recent true demoList, r ∉ demoList.drop 5 := by
  have h := C4_truncate_then_reverse demoList (by decide)
    (by simp [demoList, demoRec, List.pairwise_cons])
  exact ⟨h.1, h.2.2.2⟩

/-! ## Concrete repositories for witnesses and counterexamples -/

/-- A well-formed repository: local "master" (checked out, no upstream, tip 1)
and "dev" (upstream origin/dev at tip 3, tip 2, two commits ahead). -/
def repoGood : Repo :=
  { branches :=
      [{ name := "master", isHead := true, tipOid := 1, upstream := none },
       { name := "dev", isHead := false, tipOid := 2,
         upstream := some { name := "origin/dev", tipOid := 3 } }]
    remoteHeadRefs := []
    commitOf := fun oid =>
      if oid = 1 then { time := 100, summary := "m" }
      else { time := 200, summary := "d" }
    ahead := fun a _ => if a = 2 then 2 else 0 }

/-- The scan result of `repoGood` at clock 1000 with mode All. -/
def infoGood : BranchesInfo :=
  { branches :=
      [{ name := "dev", active := false, timestamp := 200,
         timestamp_rel := "13 mins", summary := "d", ahead := 2, oid := 2,
         upstream := some "origin/dev" },
       { name := "master", active := true, timestamp := 100,
         timestamp_rel := "15 mins", summary := "m", ahead := 0, oid := 1,
         upstream := none }]
    n_merged := 1
    n_unmerged := 1 }

theorem repoGood_scan :
    scan_branches repoGood 1000 none BranchFilter.All false = Except.ok infoGood := by
  rfl

/-- C3 witness: on `repoGood` the counters are 1 merged, 1 unmerged, summing
to the two scanned branches. -/
theorem C3_counters_witness :
    infoGood.n_merged = countMerged repoGood 1 none repoGood.branches
    ∧ infoGood.n_unmerged = countUnmerged repoGood 1 none repoGood.branches
    ∧ infoGood.n_merged + infoGood.n_unmerged
        = (repoGood.branches.filter (fun b => passesName none b.name)).length :=
  C3_counters repoGood 1000 none BranchFilter.All false infoGood 1 rfl repoGood_scan

/-- C9 witness: instantiation of the frame property on `repoGood`. -/
theorem C9_frame_witness :
    ∃ default_sha prerank,
      find_default_sha repoGood = Except.ok default_sha
      ∧ scanLoop repoGood 1000 default_sha none BranchFilter.All
          repoGood.branches 0 0 []
          = Except.ok (infoGood.n_merged, infoGood.n_unmerged, prerank)
      ∧ infoGood.branches = rankBranches BranchFilter.All false prerank
      ∧ ∀ r ∈ infoGood.branches, r ∈ prerank :=
  C9_frame repoGood 1000 none BranchFilter.All false infoGood repoGood_scan

theorem scan_branches_eq (repo : Repo) (now : Nat)
    (maybe_patterns : Option (List String)) (filter : BranchFilter) (rev : Bool)
    (default_sha : Nat) (hd : find_default_sha repo = Except.ok default_sha) :
    scan_branches repo now maybe_patterns filter rev =
      match scanLoop repo now default_sha maybe_patterns filter repo.branches 0 0 [] with
      | Except.error e => Except.error e
      | Except.ok (n_merged, n_unmerged, branches) =>
        Except.ok { branches := rankBranches filter rev branches
                    n_merged := n_merged
                    n_unmerged := n_unmerged } := by
  unfold scan_branches
  rw [hd]

/-- A repository in which the single local branch has a configured upstream,
while default-branch resolution fails (no remote HEAD pointers, no local
master or main). -/
def repoAllUpstream : Repo :=
  { branches :=
      [{ name := "feature", isHead := true, tipOid := 1,
         upstream := some { name := "origin/feature", tipOid := 2 } }]
    remoteHeadRefs := []
    commitOf := fun _ => { time := 100, summary := "c" }
    ahead := fun _ _ => 0 }

/-- C1 counterexample: every local branch of `repoAllUpstream` has an
upstream, so no branch needs the default baseline, yet the scan fails with
the default-resolution error — `find_default_sha` is called eagerly at the
top of `scan_branches` (src/main.rs line 135), not lazily. -/
theorem C1_counterexample :
    (∀ b ∈ repoAllUpstream.branches, b.upstream.isSome = true)
    ∧ find_default_sha repoAllUpstream = Except.error "Couldn\x27t find default branch"
    ∧ scan_branches repoAllUpstream 1000 none BranchFilter.All false
        = Except.error "Couldn\x27t find default branch" :=
  ⟨by decide, rfl, rfl⟩

/-- C1 (amended): the default baseline is computed eagerly, exactly once, at
the start of every scan; whenever its computation fails, the scan fails with
that same error — even when every local branch has a configured upstream and
so no branch would need the default. -/
theorem C1_amended (repo : Repo) (now : Nat) (maybe_patterns : Option (List String))
    (filter : BranchFilter) (rev : Bool) (e : String)
    (_hall : ∀ b ∈ repo.branches, b.upstream.isSome = true)
    (he : find_default_sha repo = Except.error e) :
    scan_branches repo now maybe_patterns filter rev = Except.error e := by
  unfold scan_branches
  rw [he]

/-- C1 witness: the amended statement applied to `repoAllUpstream`. -/
theorem C1_amended_witness :
    scan_branches repoAllUpstream 42 none BranchFilter.Recent false
      = Except.error "Couldn\x27t find default branch" :=
  C1_amended repoAllUpstream 42 none BranchFilter.Recent false _ (by decide) rfl

/-- A repository with two remotes exposing HEAD pointers: `origin2`
(enumerated first, target resolving to local "main", tip 1) and `origin`
(target resolving to local "master", tip 2). -/
def repoTwoOrigins : Repo :=
  { branches :=
      [{ name := "main", isHead := true, tipOid := 1, upstream := none },
       { name := "master", isHead := false, tipOid := 2, upstream := none }]
    remoteHeadRefs :=
      [{ name := "refs/remotes/origin2/HEAD", isRemote := true,
         resolvedName := "refs/remotes/origin2/main" },
       { name := "refs/remotes/origin/HEAD", isRemote := true,
         resolvedName := "refs/remotes/origin/master" }]
    commitOf := fun _ => { time := 1, summary := "s" }
    ahead := fun _ _ => 0 }

/-- C5 counterexample: the enumeration contains a pointer belonging to the
remote named origin (target: local "master", tip 2), yet the resolver
returns tip 1 — the target of the remote `origin2`, which also matches the
`starts_with("refs/remotes/origin")` prefix test and is enumerated first.
So the resolver does not choose origin's target regardless of enumeration
order. -/
theorem C5_counterexample :
    (∃ r ∈ repoTwoOrigins.remoteHeadRefs,
      r.name = "refs/remotes/origin/HEAD" ∧ r.isRemote = true)
    ∧ find_default_sha repoTwoOrigins = Except.ok 1
    ∧ find_default_sha repoTwoOrigins ≠ Except.ok 2 := by
  refine ⟨by decide, rfl, ?_⟩
  intro hc
  have h1 : find_default_sha repoTwoOrigins = Except.ok 1 := rfl
  rw [h1] at hc
  exact absurd (Except.ok.inj hc) (by decide)

/-- C5 (amended): the resolver chooses the first enumerated remote pointer
whose full reference name starts with the prefix "refs/remotes/origin" (so a
remote merely named with that prefix, such as origin2, also qualifies and can
shadow origin when enumerated first — when origin is the only such remote this
is origin\x27s pointer regardless of enumeration order); with no
prefix-matching pointer it keeps the last remote pointer enumerated; when the
pointer chain yields nothing — no pointer chosen, or the chosen pointer\x27s
branch has no local counterpart — it falls back to a local branch literally
named "master", then "main", in that order (master is preferred even when main
exists, and main is used only when master is absent); and the
no-default-branch error is reported only when local branches named master and
main are both absent. -/
theorem C5_amended (repo : Repo) :
    headRefChosen repo =
      (match (repo.remoteHeadRefs.filter (fun r => r.isRemote)).find?
          (fun r => strStartsWith r.name "refs/remotes/origin") with
      | some r => some r
      | none =>
        match (repo.remoteHeadRefs.filter (fun r => r.isRemote)).getLast? with
        | some r => some r
        | none => none)
    ∧ (headRefChosen repo = none →
        find_default_sha repo = fallbackDefault repo)
    ∧ (∀ hr seg branchChars, headRefChosen repo = some hr →
        splitFirstSlash (hr.resolvedName.data.drop ("refs/remotes/".length))
          = some (seg, branchChars) →
        findLocalBranch repo (String.mk branchChars) = none →
        find_default_sha repo = fallbackDefault repo)
    ∧ (∀ b, findLocalBranch repo "master" = some b →
        fallbackDefault repo = Except.ok b.tipOid)
    ∧ (findLocalBranch repo "master" = none →
        ∀ b, findLocalBranch repo "main" = some b →
        fallbackDefault repo = Except.ok b.tipOid)
    ∧ (findLocalBranch repo "master" = none →
        findLocalBranch repo "main" = none →
        fallbackDefault repo = Except.error "Couldn\x27t find default branch")
    ∧ (find_default_sha repo = Except.error "Couldn\x27t find default branch" →
        findLocalBranch repo "master" = none ∧ findLocalBranch repo "main" = none) := by
  refine ⟨?_, ?_, ?_, ?_, ?_, ?_, ?_⟩
  · exact selectHeadRef_eq repo.remoteHeadRefs none
  · intro hch
    unfold find_default_sha
    rw [hch]
  · intro hr seg branchChars hch hsp hfl
    unfold find_default_sha resolveChosen
    rw [hch]
    simp only [hsp, hfl]
  · intro b hb
    unfold fallbackDefault
    rw [hb]
  · intro hm b hb
    unfold fallbackDefault
    rw [hm, hb]
  · intro hm hn
    unfold fallbackDefault
    rw [hm, hn]
  · intro herr
    unfold find_default_sha at herr
    split at herr
    next hr hch =>
      unfold resolveChosen at herr
      split at herr
      next hsp =>
        exact absurd (Except.error.inj herr) (by decide)
      next seg branchChars hsp =>
        split at herr
        next b hfl => exact absurd herr (by simp)
        next hfl =>
          unfold fallbackDefault at herr
          split at herr
          next b hm => exact absurd herr (by simp)
          next hm =>
            split at herr
            next b hn => exact absurd herr (by simp)
            next hn => exact ⟨hm, hn⟩
    next hch =>
      unfold fallbackDefault at herr
      split at herr
      next b hm => exact absurd herr (by simp)
      next hm =>
        split at herr
        next b hn => exact absurd herr (by simp)
        next hn => exact ⟨hm, hn⟩

/-- The empty repository. -/
def repoEmpty : Repo :=
  { branches := []
    remoteHeadRefs := []
    commitOf := fun _ => { time := 0, summary := "" }
    ahead := fun _ _ => 0 }

/-- C5 witness: the amended statement applied to concrete repositories —
on `repoTwoOrigins` (which has both local master, tip 2, and local main,
tip 1) the fallback prefers master; on the empty repository the pointer
chain yields nothing, the resolver falls through to the fallback, and the
no-default-branch error coincides with master and main both absent. -/
theorem C5_amended_witness :
    fallbackDefault repoTwoOrigins = Except.ok 2
    ∧ headRefChosen repoEmpty = none
    ∧ find_default_sha repoEmpty = fallbackDefault repoEmpty
    ∧ fallbackDefault repoEmpty = Except.error "Couldn\x27t find default branch"
    ∧ (findLocalBranch repoEmpty "master" = none
        ∧ findLocalBranch repoEmpty "main" = none) :=
  ⟨(C5_amended repoTwoOrigins).2.2.2.1 _ rfl,
   (C5_amended repoEmpty).1.trans rfl,
   (C5_amended repoEmpty).2.1 rfl,
   (C5_amended repoEmpty).2.2.2.2.2.1 rfl rfl,
   (C5_amended repoEmpty).2.2.2.2.2.2 rfl⟩

/-- A repository whose branch "feat" has a negative tip timestamp but is
unmerged, scanned under the Merged filter: the merge-status `continue` of
src/main.rs lines 174-178 runs before the timestamp assertion of line 180. -/
def repoNegSkipped : Repo :=
  { branches :=
      [{ name := "master", isHead := true, tipOid := 1,
         upstream := some { name := "origin/master", tipOid := 1 } },
       { name := "feat", isHead := false, tipOid := 10,
         upstream := some { name := "origin/feat", tipOid := 11 } }]
    remoteHeadRefs := []
    commitOf := fun oid =>
      if oid = 10 then { time := -5, summary := "bad" }
      else { time := 50, summary := "ok" }
    ahead := fun a _ => if a = 10 then 1 else 0 }

/-- C8 counterexample: branch "feat" is reported with a negative tip
timestamp and passes name filtering — it is even counted in the unmerged
aggregate — yet the scan succeeds rather than rejecting it, because the
merge-status filter (mode Merged) skips the branch before the timestamp
assertion is evaluated. -/
theorem C8_counterexample :
    (∃ b ∈ repoNegSkipped.branches,
      (repoNegSkipped.commitOf b.tipOid).time < 0 ∧ passesName none b.name = true)
    ∧ (∃ info, scan_branches repoNegSkipped 100 none BranchFilter.Merged false
        = Except.ok info ∧ info.n_unmerged = 1) :=
  ⟨by decide, ⟨_, rfl, rfl⟩⟩

/-- C8 (amended): given a successfully resolved default baseline, the scan
succeeds exactly when every branch that passes the name filter and survives
the merge-status filter has a non-negative source timestamp — so a negative
timestamp on any branch reaching record construction is rejected (the scan
fails), the rejection is unreachable when all such timestamps are
non-negative, and every stored timestamp then equals the source value (no
coercion of negative values can be observed in the output). -/
theorem C8_amended (repo : Repo) (now : Nat) (maybe_patterns : Option (List String))
    (filter : BranchFilter) (rev : Bool) (default_sha : Nat)
    (hd : find_default_sha repo = Except.ok default_sha) :
    ((∃ info, scan_branches repo now maybe_patterns filter rev = Except.ok info)
      ↔ ∀ b ∈ repo.branches, passesName maybe_patterns b.name = true →
          keptByMergeFilter filter (aheadOf repo default_sha b == 0) = true →
          0 ≤ (repo.commitOf b.tipOid).time)
    ∧ (∀ info, scan_branches repo now maybe_patterns filter rev = Except.ok info →
        ∀ r ∈ info.branches, ∃ b ∈ repo.branches,
          r.oid = b.tipOid
          ∧ (r.timestamp : Int) = (repo.commitOf b.tipOid).time
          ∧ r.timestamp = (repo.commitOf b.tipOid).time.toNat) := by
  constructor
  · constructor
    · rintro ⟨info, h⟩
      rw [scan_branches_eq repo now maybe_patterns filter rev default_sha hd] at h
      split at h
      next e heq => exact absurd h (by simp)
      next m u l heq =>
        exact scanLoop_ok_nonneg repo now default_sha maybe_patterns filter
          repo.branches 0 0 [] (m, u, l) heq
    · intro hnn
      rw [scan_branches_eq repo now maybe_patterns filter rev default_sha hd,
        scanLoop_ok_of repo now default_sha maybe_patterns filter
          repo.branches 0 0 [] hnn]
      exact ⟨_, rfl⟩
  · intro info h r hr
    rw [scan_branches_eq repo now maybe_patterns filter rev default_sha hd] at h
    split at h
    next e heq => exact absurd h (by simp)
    next m u l heq =>
      injection h with h2
      subst h2
      have hnn := scanLoop_ok_nonneg repo now default_sha maybe_patterns filter
        repo.branches 0 0 [] (m, u, l) heq
      have hok := scanLoop_ok_of repo now default_sha maybe_patterns filter
        repo.branches 0 0 [] hnn
      rw [heq] at hok
      injection hok with h3
      have hl : l = (repo.branches.filter
          (survives repo default_sha maybe_patterns filter)).map
          (recordOf repo now default_sha) := by
        have := congrArg (fun t : Nat × Nat × List BranchInfo => t.2.2) h3
        simpa using this
      have hrl : r ∈ l := rankBranches_subset filter rev l r hr
      rw [hl] at hrl
      rcases List.mem_map.mp hrl with ⟨b, hbf, hbr⟩
      rcases List.mem_filter.mp hbf with ⟨hbmem, hbs⟩
      have hbs2 : passesName maybe_patterns b.name = true
          ∧ keptByMergeFilter filter (aheadOf repo default_sha b == 0) = true := by
        simpa [survives, Bool.and_eq_true] using hbs
      obtain ⟨hbp, hbk⟩ := hbs2
      have hbt : 0 ≤ (repo.commitOf b.tipOid).time := hnn b hbmem hbp hbk
      refine ⟨b, hbmem, ?_, ?_, ?_⟩
      · rw [← hbr]; rfl
      · rw [← hbr]
        show (((repo.commitOf b.tipOid).time.toNat : Int))
          = (repo.commitOf b.tipOid).time
        exact Int.toNat_of_nonneg hbt
      · rw [← hbr]; rfl

/-- C8 witness: the amended statement applied to `repoGood` (all timestamps
non-negative, default baseline tip 1). -/
theorem C8_amended_witness :
    ((∃ info, scan_branches repoGood 1000 none BranchFilter.All false
        = Except.ok info)
      ↔ ∀ b ∈ repoGood.branches, passesName none b.name = true →
          keptByMergeFilter BranchFilter.All (aheadOf repoGood 1 b == 0) = true →
          0 ≤ (repoGood.commitOf b.tipOid).time)
    ∧ (∀ info, scan_branches repoGood 1000 none BranchFilter.All false
        = Except.ok info →
        ∀ r ∈ info.branches, ∃ b ∈ repoGood.branches,
          r.oid = b.tipOid
          ∧ (r.timestamp : Int) = (repoGood.commitOf b.tipOid).time
          ∧ r.timestamp = (repoGood.commitOf b.tipOid).time.toNat) :=
  C8_amended repoGood 1000 none BranchFilter.All false 1 rfl

/-- C7: for a timestamp strictly in the past the produced label agrees with
the specification characterization `relLabelSpec` of the age `now -
timestamp` (largest unit with count at least 1 below the next threshold,
pluralized with a trailing "s" exactly when the count is not 1), and for
`timestamp == now` the function returns "now". -/
theorem C7_relative_label (timestamp now : Nat) :
    (timestamp < now →
      epoch_to_relative_str timestamp now = relLabelSpec (now - timestamp))
    ∧ (timestamp = now → epoch_to_relative_str timestamp now = "now") := by
  constructor
  · exact epoch_eq_relLabelSpec timestamp now
  · intro h
    subst h
    unfold epoch_to_relative_str
    simp

/-- C7 witness: age 90 seconds yields "1 min", age 3600 seconds yields
"1 hour", and a timestamp equal to the clock yields "now". -/
theorem C7_relative_label_witness :
    epoch_to_relative_str 10 100 = relLabelSpec 90
    ∧ relLabelSpec 90 = "1 min"
    ∧ epoch_to_relative_str 0 3600 = relLabelSpec 3600
    ∧ relLabelSpec 3600 = "1 hour"
    ∧ epoch_to_relative_str 7 7 = "now" :=
  ⟨(C7_relative_label 10 100).1 (by decide), by decide,
   (C7_relative_label 0 3600).1 (by decide), by decide,
   (C7_relative_label 7 7).2 rfl⟩

/-! ## Decimal rendering facts, for C10 -/

theorem toDigitsCore_length_ge (b : Nat) :
    ∀ (fuel n : Nat) (ds : List Char), 1 ≤ fuel →
      ds.length + 1 ≤ (Nat.toDigitsCore b fuel n ds).length := by
  intro fuel
  induction fuel with
  | zero => intro n ds h; omega
  | succ f ihf =>
    intro n ds _
    simp only [Nat.toDigitsCore]
    by_cases h0 : n / b = 0
    · simp [h0]
    · simp only [h0, if_false]
      cases f with
      | zero => simp [Nat.toDigitsCore]
      | succ f2 =>
        have := ihf (n / b) (Nat.digitChar (n % b) :: ds) (by omega)
        simp only [List.length_cons] at this
        omega

theorem repr_ne_zero (n : Nat) (h : 1 ≤ n) : Nat.repr n ≠ "0" := by
  intro he
  have hd : Nat.toDigits 10 n = ['0'] := by
    have h2 := congrArg String.data he
    simpa [Nat.repr, List.asString] using h2
  unfold Nat.toDigits at hd
  simp only [Nat.toDigitsCore] at hd
  by_cases h0 : n / 10 = 0
  · rw [if_pos h0] at hd
    have h10 : n < 10 := by omega
    have hmod : n % 10 = n := Nat.mod_eq_of_lt h10
    rw [hmod] at hd
    interval_cases n <;> exact absurd hd (by decide)
  · rw [if_neg h0] at hd
    have hlen := toDigitsCore_length_ge 10 n (n / 10)
      [Nat.digitChar (n % 10)] (by omega)
    rw [hd] at hlen
    simp at hlen

theorem plural_ne_of_mem (u : String) (n : Nat) (c : Char)
    (hc : c ∈ u.data) (hnot : c ∉ "0 secs".data) : plural u n ≠ "0 secs" := by
  intro he
  have hdata := congrArg String.data he
  simp only [plural, String.data_append] at hdata
  apply hnot
  have hlit : "0 secs".data = ['0', ' ', 's', 'e', 'c', 's'] := rfl
  rw [hlit, ← hdata]
  simp only [List.mem_append]
  exact Or.inl (Or.inr hc)

theorem plural_sec_ne_zero_secs (n : Nat) (h : 1 ≤ n) :
    plural "sec" n ≠ "0 secs" := by
  intro he
  by_cases h1 : n = 1
  · subst h1; exact absurd he (by decide)
  · have hsfx : (if n == 1 then "" else "s") = "s" := by simp [h1]
    have hdata := congrArg String.data he
    simp only [plural, hsfx, String.data_append] at hdata
    rw [List.append_assoc, List.append_assoc] at hdata
    have hjoin : " ".data ++ ("sec".data ++ "s".data) = " secs".data := rfl
    rw [hjoin] at hdata
    have h0 : (['0', ' ', 's', 'e', 'c', 's'] : List Char)
        = "0".data ++ " secs".data := rfl
    rw [h0] at hdata
    have hpair := List.append_inj' hdata rfl
    have hrepr2 : (Nat.repr n).data = "0".data := hpair.1
    exact repr_ne_zero n h (String.ext hrepr2)

/-- C10: the label is "now" for every timestamp at or after the clock
(including strictly future timestamps); for every timestamp strictly in the
past the label is one of the unit labels with a count of at least 1; and the
string "0 secs" is never produced. -/
theorem C10_now_and_positive_counts (timestamp now : Nat) :
    (now ≤ timestamp → epoch_to_relative_str timestamp now = "now")
    ∧ (timestamp < now → ∃ u n, 1 ≤ n
        ∧ (u = "sec" ∨ u = "min" ∨ u = "hour" ∨ u = "day" ∨ u = "week"
            ∨ u = "month" ∨ u = "year")
        ∧ epoch_to_relative_str timestamp now = plural u n)
    ∧ epoch_to_relative_str timestamp now ≠ "0 secs" := by
  have hnow : now ≤ timestamp → epoch_to_relative_str timestamp now = "now" := by
    intro h
    unfold epoch_to_relative_str
    rw [if_pos h]
  have hpast : timestamp < now → ∃ u n, 1 ≤ n
      ∧ (u = "sec" ∨ u = "min" ∨ u = "hour" ∨ u = "day" ∨ u = "week"
          ∨ u = "month" ∨ u = "year")
      ∧ epoch_to_relative_str timestamp now = plural u n := by
    intro h
    rw [epoch_eq_relLabelSpec timestamp now h]
    have ha1 : 1 ≤ now - timestamp := by omega
    unfold relLabelSpec
    split_ifs with h1 h2 h3 h4 h5 h6
    · exact ⟨"sec", now - timestamp, ha1, by tauto,
        (plural_eq_pluralSpec "sec" _).symm⟩
    · exact ⟨"min", (now - timestamp) / 60, by omega, by tauto,
        (plural_eq_pluralSpec "min" _).symm⟩
    · exact ⟨"hour", (now - timestamp) / 3600, by omega, by tauto,
        (plural_eq_pluralSpec "hour" _).symm⟩
    · exact ⟨"day", (now - timestamp) / 86400, by omega, by tauto,
        (plural_eq_pluralSpec "day" _).symm⟩
    · exact ⟨"week", (now - timestamp) / 86400 / 7, by omega, by tauto,
        (plural_eq_pluralSpec "week" _).symm⟩
    · exact ⟨"month", (now - timestamp) / 86400 / 30, by omega, by tauto,
        (plural_eq_pluralSpec "month" _).symm⟩
    · exact ⟨"year", (now - timestamp) / 86400 / 30 / 12, by omega, by tauto,
        (plural_eq_pluralSpec "year" _).symm⟩
  refine ⟨hnow, hpast, ?_⟩
  by_cases h : timestamp < now
  · obtain ⟨u, n, hn, hu, heq⟩ := hpast h
    rw [heq]
    rcases hu with h | h | h | h | h | h | h
    · subst h; exact plural_sec_ne_zero_secs n hn
    · subst h; exact plural_ne_of_mem "min" n 'm' (by decide) (by decide)
    · subst h; exact plural_ne_of_mem "hour" n 'h' (by decide) (by decide)
    · subst h; exact plural_ne_of_mem "day" n 'd' (by decide) (by decide)
    · subst h; exact plural_ne_of_mem "week" n 'w' (by decide) (by decide)
    · subst h; exact plural_ne_of_mem "month" n 'm' (by decide) (by decide)
    · subst h; exact plural_ne_of_mem "year" n 'y' (by decide) (by decide)
  · rw [hnow (by omega)]
    decide

/-- C10 witness: a strictly future timestamp yields "now"; a timestamp 60
seconds in the past yields a unit label with positive count and is not
"0 secs". -/
theorem C10_now_and_positive_counts_witness :
    epoch_to_relative_str 12 10 = "now"
    ∧ (∃ u n, 1 ≤ n
        ∧ (u = "sec" ∨ u = "min" ∨ u = "hour" ∨ u = "day" ∨ u = "week"
            ∨ u = "month" ∨ u = "year")
        ∧ epoch_to_relative_str 5 65 = plural u n)
    ∧ epoch_to_relative_str 5 65 ≠ "0 secs" :=
  ⟨(C10_now_and_positive_counts 12 10).1 (by decide),
   (C10_now_and_positive_counts 5 65).2.1 (by decide),
   (C10_now_and_positive_counts 5 65).2.2⟩
